import Mathlib

/-!
Shallow embedding of the hpsdr-emu sources (src/rust/src/radio.rs and
src/rust/src/protocol1.rs) together with proofs checking the natural-language
specification against the code.

Modelling conventions:
* machine integers (`u8`, `u16`, `u32`, `usize`) are `ℕ`, with explicit
  `% 2 ^ w` exactly where the Rust code wraps;
* `i16`/`i32`/24-bit signed values are `ℤ`;
* `f64` samples are modelled as exact rationals `ℚ` (every `f64` value is a
  rational); the transcendental pieces of the echo path (`cos`, `sin`, the
  float constant `PI`) are passed in as function parameters, since the claims
  about that code concern only lengths, buffer bookkeeping and totality;
* byte buffers are `List ℕ`; fallible code paths (the `unwrap` and the
  remainder-by-zero that a zero-length recording would hit) return `Option`.
-/

namespace HpsdrEmu

/-- Truncation toward zero of a rational, the semantics of Rust `as i32` on an
in-range `f64` value (`Int.tdiv` is truncating division; see
`truncToInt_eq_floor` for the floor characterization). -/
def truncToInt (q : ℚ) : ℤ :=
  q.num.tdiv q.den

/-- Rust `as usize` on a nonnegative-or-saturating `f64`: truncate toward zero,
negative values saturate to 0. -/
def ratToUsize (q : ℚ) : ℕ :=
  (truncToInt q).toNat

/-- Rust `f64::clamp(-1.0, 1.0)`. -/
def clampQ (x : ℚ) : ℚ :=
  max (-1) (min x 1)

/-- Interpret a `ℕ` below `2 ^ 16` as a signed 16-bit value
(`i16::from_be_bytes` composed with the byte recomposition). -/
def toSigned16 (n : ℕ) : ℤ :=
  if n < 32768 then (n : ℤ) else (n : ℤ) - 65536

/-- Interpret a `ℕ` below `2 ^ 24` as a signed 24-bit value. -/
def toSigned24 (n : ℕ) : ℤ :=
  if n < 8388608 then (n : ℤ) else (n : ℤ) - 16777216

/-- Big-endian bytes of a `u16` (`u16::to_be_bytes`). -/
def be16 (v : ℕ) : List ℕ :=
  [(v / 256) % 256, v % 256]

/-- Big-endian bytes of a `u32` (`u32::to_be_bytes`). -/
def be32 (v : ℕ) : List ℕ :=
  [(v / 16777216) % 256, (v / 65536) % 256, (v / 256) % 256, v % 256]

/-- `u32::from_be_bytes([a, b, c, d])` for byte values `a b c d`. -/
def u32FromBe (a b c d : ℕ) : ℕ :=
  ((a * 256 + b) * 256 + c) * 256 + d

/-- Embedding of `pack_iq_24bit_into` (radio.rs): clamp each component to
[-1, 1], scale by 8_388_607, truncate toward zero, reinterpret as `u32`
two's complement, mask to 24 bits, and emit 3 big-endian bytes per component
(I then Q), 6 bytes in total. -/
def packIQ24Bytes (s : ℚ × ℚ) : List ℕ :=
  let maxVal : ℚ := 8388607
  let iv : ℤ := truncToInt (clampQ s.1 * maxVal)
  let qv : ℤ := truncToInt (clampQ s.2 * maxVal)
  let iu : ℕ := (iv % (2 ^ 32 : ℤ)).toNat &&& 0xFFFFFF
  let qu : ℕ := (qv % (2 ^ 32 : ℤ)).toNat &&& 0xFFFFFF
  [(iu >>> 16) &&& 0xFF, (iu >>> 8) &&& 0xFF, iu &&& 0xFF,
   (qu >>> 16) &&& 0xFF, (qu >>> 8) &&& 0xFF, qu &&& 0xFF]

/-- Modelled from the spec: the host-side decoder for one 24-bit big-endian
signed component scaled by 1/8_388_607 ("decoding the encoded bytes (as signed
24-bit BE, scaled by 1/8_388_607)").  The repository contains no 24-bit
decoder; this definition follows the spec's words and is only compared
against `packIQ24Bytes`. -/
def decode24Spec (b : List ℕ) : ℚ :=
  (toSigned24 (b.getD 0 0 * 65536 + b.getD 1 0 * 256 + b.getD 2 0) : ℚ) / 8388607

/-- Embedding of `unpack_tx_iq_16bit` (radio.rs): each 8-byte block is
[L(2B) R(2B) I(2B) Q(2B)] big-endian signed; only I and Q are consumed,
scaled by 1/32768.  Whole blocks only; a trailing partial block is dropped. -/
def unpackTxIq16 (data : List ℕ) : List (ℚ × ℚ) :=
  (List.range (data.length / 8)).map (fun k =>
    let off := k * 8
    let iVal := toSigned16 (data.getD (off + 4) 0 * 256 + data.getD (off + 5) 0)
    let qVal := toSigned16 (data.getD (off + 6) 0 * 256 + data.getD (off + 7) 0)
    ((iVal : ℚ) / 32768, (qVal : ℚ) / 32768))

/-- Embedding of the `HpsdrHw` enum (radio.rs). -/
inductive HpsdrHw where
  | Atlas
  | Hermes
  | HermesII
  | Angelia
  | Orion
  | OrionMkII
  | HermesLite
  | Saturn
  | SaturnMkII
deriving DecidableEq

/-- `HpsdrHw::code` (radio.rs): the one-byte board code. -/
def HpsdrHw.code : HpsdrHw → ℕ
  | .Atlas => 0
  | .Hermes => 1
  | .HermesII => 2
  | .Angelia => 3
  | .Orion => 4
  | .OrionMkII => 5
  | .HermesLite => 6
  | .Saturn => 10
  | .SaturnMkII => 11

/-- `HpsdrHw::max_ddcs` (radio.rs). -/
def HpsdrHw.max_ddcs : HpsdrHw → ℕ
  | .Atlas => 2
  | .Hermes => 4
  | .HermesII => 4
  | .Angelia => 5
  | .Orion => 5
  | .OrionMkII => 8
  | .HermesLite => 2
  | .Saturn => 10
  | .SaturnMkII => 10

/-- `SAMPLE_RATES_P1` (radio.rs): (rate, code) pairs. -/
def SAMPLE_RATES_P1 : List (ℕ × ℕ) :=
  [(48000, 0), (96000, 1), (192000, 2), (384000, 3)]

/-- `code_to_sample_rate` (radio.rs). -/
def codeToSampleRate (code : ℕ) : Option ℕ :=
  (SAMPLE_RATES_P1.find? (fun p => p.2 == code)).map (fun p => p.1)

/-- Embedding of `RadioState` (radio.rs).  Fixed-size Rust arrays become
functions out of `Fin`; the `HashMap<String, u32>` of per-stream sequence
numbers becomes a total function with the `or_insert(0)` default baked in. -/
structure RadioState where
  hw : HpsdrHw
  mac : Fin 6 → ℕ
  firmware_version : ℕ
  mercury_versions : Fin 4 → ℕ
  penny_version : ℕ
  metis_version : ℕ
  sample_rate : ℕ
  nddc : ℕ
  rx_frequencies : Fin 12 → ℕ
  tx_frequency : ℕ
  tx_drive : ℕ
  running : Bool
  ptt : Bool
  seq : String → ℕ

/-- `RadioState::new` (radio.rs). -/
def RadioState.new (hw : HpsdrHw) (mac : Fin 6 → ℕ) : RadioState where
  hw := hw
  mac := mac
  firmware_version := 25
  mercury_versions := fun _ => 25
  penny_version := 25
  metis_version := 25
  sample_rate := 48000
  nddc := hw.max_ddcs
  rx_frequencies := fun _ => 7074000
  tx_frequency := 7074000
  tx_drive := 0
  running := false
  ptt := false
  seq := fun _ => 0

/-- `RadioState::next_seq` (radio.rs): return the current `u32` for the stream
and store its wrapping successor. -/
def RadioState.next_seq (r : RadioState) (stream : String) : ℕ × RadioState :=
  let val := r.seq stream
  (val, { r with seq := fun k => if k = stream then (val + 1) % 4294967296 else r.seq k })

/-- Complex multiplication on the `ℚ × ℚ` model of `Complex<f64>`. -/
def cmul (a b : ℚ × ℚ) : ℚ × ℚ :=
  (a.1 * b.1 - a.2 * b.2, a.1 * b.2 + a.2 * b.1)

/-- Componentwise addition on `ℚ × ℚ`. -/
def cadd (a b : ℚ × ℚ) : ℚ × ℚ :=
  (a.1 + b.1, a.2 + b.2)

/-- Rust `f64 %` (remainder with the dividend's sign):
`a - b * trunc(a / b)`. -/
def ratFmod (a b : ℚ) : ℚ :=
  a - b * (truncToInt (a / b) : ℚ)

/-- Update-or-insert on an association list, the model of `HashMap::insert`:
the new binding shadows (and removes) any previous binding of the key. -/
def updMap {α : Type} (l : List (ℕ × α)) (k : ℕ) (v : α) : List (ℕ × α) :=
  (k, v) :: l.filter (fun p => p.1 != k)

/-- Embedding of `EchoBuffer` (radio.rs).  The three `HashMap`s become
association lists; samples are `ℚ × ℚ`. -/
structure EchoBuffer where
  sample_rate : ℕ
  max_duration : ℚ
  attenuation : ℚ
  echoes : List (ℕ × List (ℚ × ℚ))
  playback_pos : List (ℕ × ℕ)
  shift_phase : List (ℕ × ℚ)
  recording : List (ℚ × ℚ)
  recording_freq : ℕ
  is_recording : Bool

/-- `EchoBuffer::new` (radio.rs).  `10^(-60/20) = 10^(-3) = 1/1000` exactly. -/
def EchoBuffer.new (sample_rate : ℕ) : EchoBuffer where
  sample_rate := sample_rate
  max_duration := 10
  attenuation := 1 / 1000
  echoes := []
  playback_pos := []
  shift_phase := []
  recording := []
  recording_freq := 0
  is_recording := false

/-- The `(self.sample_rate as f64 * self.max_duration) as usize` cap computed
inside `EchoBuffer::commit`. -/
def EchoBuffer.maxSamples (eb : EchoBuffer) : ℕ :=
  ratToUsize ((eb.sample_rate : ℚ) * eb.max_duration)

/-- Embedding of `EchoBuffer::commit` (radio.rs).  An empty staging area
returns unchanged; frequency 0 discards the staging area; otherwise the
staging area is taken (`std::mem::take` empties it), truncated to
`maxSamples`, and — if still non-empty — stored under the recording frequency
with the playback position reset to 0. -/
def EchoBuffer.commit (eb : EchoBuffer) : EchoBuffer :=
  if eb.recording = [] then eb
  else if eb.recording_freq = 0 then { eb with recording := [] }
  else
    let freq := eb.recording_freq
    let buf := eb.recording.take eb.maxSamples
    let eb := { eb with recording := [] }
    if buf = [] then eb
    else
      { eb with
        echoes := updMap eb.echoes freq buf
        playback_pos := updMap eb.playback_pos freq 0 }

/-- `EchoBuffer::start_recording` (radio.rs): commit any in-flight recording,
then clear the staging area, latch the frequency and enter recording state. -/
def EchoBuffer.startRecording (eb : EchoBuffer) (tx_freq : ℕ) : EchoBuffer :=
  let eb := if eb.is_recording then eb.commit else eb
  { eb with recording := [], recording_freq := tx_freq, is_recording := true }

/-- `EchoBuffer::feed` (radio.rs). -/
def EchoBuffer.feed (eb : EchoBuffer) (samples : List (ℚ × ℚ)) : EchoBuffer :=
  if eb.is_recording = false ∨ samples = [] then eb
  else { eb with recording := eb.recording ++ samples }

/-- `EchoBuffer::stop_recording` (radio.rs). -/
def EchoBuffer.stopRecording (eb : EchoBuffer) : EchoBuffer :=
  if eb.is_recording then { eb.commit with is_recording := false } else eb

/-- The chunk-copy `while remaining > 0` loop of `EchoBuffer::generate_echo`
(radio.rs): copy `remaining` samples circularly starting at `pos`, advancing
`pos` modulo the buffer length after every block.  Returns `none` exactly when
the source loop would panic on `% 0` or spin forever (`available = 0`), which
happens iff the buffer is empty or `pos` is out of range. -/
def copyCircular (ebuf : List (ℚ × ℚ)) (pos remaining : ℕ) :
    Option (List (ℚ × ℚ) × ℕ) :=
  if h : remaining = 0 then some ([], pos)
  else
    let elen := ebuf.length
    let available := min remaining (elen - pos)
    if h2 : available = 0 then none
    else
      let piece := (ebuf.drop pos).take available
      match copyCircular ebuf ((pos + available) % elen) (remaining - available) with
      | none => none
      | some (rest, p) => some (piece ++ rest, p)
termination_by remaining
decreasing_by
  have h3 : 0 < available := Nat.pos_of_ne_zero h2
  have h4 : 0 < remaining := Nat.pos_of_ne_zero h
  omega

/-- The per-recorded-frequency loop body of `EchoBuffer::generate_echo`
(radio.rs), folded over the snapshot of the map's keys.  `cosF`, `sinF` and
`piQ` stand for the `f64` cosine, sine and `PI` (every `f64` is a rational;
the claims settled here do not depend on their values).  `none` models the
`unwrap` / remainder-by-zero failure paths. -/
def genLoop (cosF sinF : ℚ → ℚ) (piQ : ℚ) (n_samples rx_freq sample_rate : ℕ) :
    List ℕ → EchoBuffer → List (ℚ × ℚ) → Option (List (ℚ × ℚ) × EchoBuffer)
  | [], eb, result => some (result, eb)
  | freq :: rest, eb, result =>
    let offset_hz : ℚ := (rx_freq : ℚ) - (freq : ℚ)
    if |offset_hz| > (sample_rate : ℚ) / 2 then
      genLoop cosF sinF piQ n_samples rx_freq sample_rate rest eb result
    else
      match List.lookup freq eb.echoes with
      | none => none
      | some echo_buf =>
        let pos := (List.lookup freq eb.playback_pos).getD 0
        match copyCircular echo_buf pos n_samples with
        | none => none
        | some (chunk, pos') =>
          let eb := { eb with playback_pos := updMap eb.playback_pos freq pos' }
          let sr : ℚ := (sample_rate : ℚ)
          let p := if offset_hz ≠ 0 then
              let phase0 := (List.lookup freq eb.shift_phase).getD 0
              let step := 2 * piQ * offset_hz / sr
              let chunk' := chunk.mapIdx (fun i s =>
                cmul s (cosF (phase0 + step * (i : ℚ)), sinF (phase0 + step * (i : ℚ))))
              let new_phase := phase0 + step * (n_samples : ℚ)
              let new_phase := if |new_phase| > 1000000 then ratFmod new_phase (2 * piQ) else new_phase
              (chunk', { eb with shift_phase := updMap eb.shift_phase freq new_phase })
            else (chunk, eb)
          genLoop cosF sinF piQ n_samples rx_freq sample_rate rest p.2
            (List.zipWith cadd result p.1)

/-- Embedding of `EchoBuffer::generate_echo` (radio.rs). -/
def generateEcho (cosF sinF : ℚ → ℚ) (piQ : ℚ) (eb : EchoBuffer)
    (n_samples rx_freq sample_rate : ℕ) : Option (List (ℚ × ℚ) × EchoBuffer) :=
  if eb.echoes = [] then some (List.replicate n_samples (0, 0), eb)
  else
    match genLoop cosF sinF piQ n_samples rx_freq sample_rate
        (eb.echoes.map (fun p => p.1)) eb (List.replicate n_samples (0, 0)) with
    | none => none
    | some (result, eb') =>
      some (result.map (fun s => (s.1 * eb'.attenuation, s.2 * eb'.attenuation)), eb')

/-- `RESPONSE_ADDRS` (protocol1.rs): the C0 addresses the radio rotates
through on outbound sub-frames. -/
def RESPONSE_ADDRS : List ℕ :=
  [0x00, 0x08, 0x10, 0x18]

/-- Embedding of `Protocol1Server::fill_subframe` (protocol1.rs).  The
sub-frame is pure in everything except the IQ samples, which the source pulls
from the signal generator or the echo buffer; that sample source is abstracted
as `prov ddc row`.  Returns the 512 sub-frame bytes and the new rotation
counter. -/
def fillSubframe (prov : ℕ → ℕ → ℚ × ℚ) (r : RadioState) (controlIdx : ℕ) :
    List ℕ × ℕ :=
  let nddc := max r.nddc 1
  let spr := 504 / (6 * nddc + 2)
  let c0_addr := RESPONSE_ADDRS.getD (controlIdx % 4) 0
  let idx' := (controlIdx + 1) % 4
  let ptt_bit : ℕ := if r.ptt then 1 else 0
  let c0 := c0_addr ||| 0x80 ||| ptt_bit
  let ctrl : List ℕ :=
    if c0_addr = 0x00 then
      [0x00, r.firmware_version, r.penny_version, 0x00]
    else if c0_addr = 0x08 then
      let d := r.tx_drive
      let exc := if r.ptt then d * 10 else 0
      let fwd := if r.ptt then (d * d) >>> 4 else 0
      be16 exc ++ be16 fwd
    else if c0_addr = 0x10 then
      let d := r.tx_drive
      let rev := if r.ptt then max (((d * d) >>> 4) / 50) 1 else 0
      be16 rev ++ be16 3200
    else if c0_addr = 0x18 then
      let pa := if r.ptt then r.tx_drive * 5 else 0
      be16 pa ++ be16 3200
    else [0, 0, 0, 0]
  let row := fun rowIdx =>
    (List.flatten ((List.range nddc).map (fun ddc => packIQ24Bytes (prov ddc rowIdx)))) ++ [0, 0]
  let payload := List.flatten ((List.range spr).map row)
  ([0x7F, 0x7F, 0x7F] ++ (c0 :: ctrl) ++ payload ++ List.replicate (504 - payload.length) 0,
   idx')

/-- Embedding of `Protocol1Server::build_data_packet` (protocol1.rs): draw the
next `p1_data` sequence number, then fill two sub-frames at offsets 8 and 520.
`prov b` supplies the samples of sub-frame B (`b = true`) or A. -/
def buildDataPacket (prov : Bool → ℕ → ℕ → ℚ × ℚ) (r : RadioState) (controlIdx : ℕ) :
    List ℕ × RadioState × ℕ :=
  let q := r.next_seq ("p1_data")
  let sfA := fillSubframe (prov false) q.2 controlIdx
  let sfB := fillSubframe (prov true) q.2 sfA.2
  ([0xEF, 0xFE, 0x01, 0x06] ++ be32 q.1 ++ sfA.1 ++ sfB.1, q.2, sfB.2)

/-- `N` consecutive timer ticks of the streaming loop, each building one data
packet (`prov k` supplies the samples of the `k`-th packet). -/
def buildPackets (prov : ℕ → Bool → ℕ → ℕ → ℚ × ℚ) :
    ℕ → RadioState → ℕ → List (List ℕ) × RadioState × ℕ
  | 0, r, controlIdx => ([], r, controlIdx)
  | n + 1, r, controlIdx =>
    let p := buildDataPacket (prov 0) r controlIdx
    let rest := buildPackets (fun k => prov (k + 1)) n p.2.1 p.2.2
    (p.1 :: rest.1, rest.2)

/-- Embedding of `Protocol1Server::build_discovery_response` (protocol1.rs):
a 60-byte buffer, zero except for the listed assignments. -/
def buildDiscoveryResponse (r : RadioState) : List ℕ :=
  [0xEF, 0xFE, 0x02,
   r.mac 0, r.mac 1, r.mac 2, r.mac 3, r.mac 4, r.mac 5,
   r.firmware_version, r.hw.code, 0, 0, 0,
   r.mercury_versions 0, r.mercury_versions 1, r.mercury_versions 2, r.mercury_versions 3,
   r.penny_version, r.metis_version, r.nddc] ++ List.replicate 39 0

/-- The MOX edge handling inside `process_control` (protocol1.rs): on a
low-to-high transition the echo recorder starts at the current TX frequency,
on high-to-low it stops. -/
def startStopEcho (eb : Option EchoBuffer) (mox : Bool) (txFreq : ℕ) : Option EchoBuffer :=
  eb.map (fun e => if mox then e.startRecording txFreq else e.stopRecording)

/-- Embedding of `Protocol1Server::process_control` (protocol1.rs). -/
def processControl (r : RadioState) (eb : Option EchoBuffer) (c0 c1 c2 c3 c4 : ℕ) :
    RadioState × Option EchoBuffer :=
  let mox : Bool := c0 &&& 0x01 != 0
  let addr := c0 &&& 0xFE
  let p := if mox ≠ r.ptt then ({ r with ptt := mox }, startStopEcho eb mox r.tx_frequency)
    else (r, eb)
  let r := p.1
  let r :=
    if addr = 0x00 then
      let r := match codeToSampleRate (c1 &&& 0x03) with
        | some rate => if r.sample_rate ≠ rate then { r with sample_rate := rate } else r
        | none => r
      let n := ((c4 >>> 3) &&& 0x07) + 1
      if n ≠ r.nddc then { r with nddc := n } else r
    else if addr = 0x02 then
      let freq := u32FromBe c1 c2 c3 c4
      if r.tx_frequency ≠ freq then { r with tx_frequency := freq } else r
    else if 0x04 ≤ addr ∧ addr < 0x12 ∧ addr % 2 = 0 then
      let ddcIdx := (addr - 0x04) / 2
      let freq := u32FromBe c1 c2 c3 c4
      if h : ddcIdx < 12 then
        if r.rx_frequencies ⟨ddcIdx, h⟩ ≠ freq then
          { r with rx_frequencies := Function.update r.rx_frequencies ⟨ddcIdx, h⟩ freq }
        else r
      else r
    else if addr = 0x12 then
      if r.tx_drive ≠ c1 then { r with tx_drive := c1 } else r
    else r
  (r, p.2)

/-- The mutable state of the `run_protocol1` event loop (protocol1.rs):
the shared radio state, the optional echo buffer, the server's rotation
counter, the latched client address (addresses are abstracted as `ℕ`) and the
streaming flag. -/
structure ServerState where
  radio : RadioState
  echo : Option EchoBuffer
  controlIdx : ℕ
  clientAddr : Option ℕ
  streaming : Bool

/-- One sub-frame slot of `Protocol1Server::handle_host_data` (protocol1.rs):
skip unless the three sync bytes are present, otherwise process C0..C4 and —
if PTT is now asserted and an echo buffer exists — feed the 504 following
bytes (63 8-byte blocks) of TX IQ to the recorder. -/
def processSubframe (st : ServerState) (data : List ℕ) (offset : ℕ) : ServerState :=
  if data.getD offset 0 = 0x7F ∧ data.getD (offset + 1) 0 = 0x7F ∧
      data.getD (offset + 2) 0 = 0x7F then
    let q := processControl st.radio st.echo (data.getD (offset + 3) 0)
      (data.getD (offset + 4) 0) (data.getD (offset + 5) 0)
      (data.getD (offset + 6) 0) (data.getD (offset + 7) 0)
    let st := { st with radio := q.1, echo := q.2 }
    if st.radio.ptt then
      match st.echo with
      | some e =>
        let txData := (data.drop (offset + 8)).take 504
        if txData.length = 504 then
          { st with echo := some (e.feed (unpackTxIq16 txData)) }
        else st
      | none => st
    else st
  else st

/-- `Protocol1Server::handle_host_data` (protocol1.rs): packets shorter than
1032 bytes are dropped; both sub-frame slots are processed independently. -/
def handleHostData (st : ServerState) (data : List ℕ) : ServerState :=
  if data.length < 1032 then st
  else processSubframe (processSubframe st data 8) data 520

/-- The receive arm of the `run_protocol1` event loop (protocol1.rs).  The
idle and streaming branches of the source act identically on every datagram
kind (discovery answered inline, start latches the client and sets
running/streaming, stop clears them, data latches the client and is parsed,
anything else — bad magic, short, unknown type — is dropped), so both are
modelled by this one function.  Returns the new state and the optional reply
datagram. -/
def handleDatagram (st : ServerState) (addr : ℕ) (data : List ℕ) :
    ServerState × Option (List ℕ) :=
  if data.length < 4 ∨ data.getD 0 0 ≠ 0xEF ∨ data.getD 1 0 ≠ 0xFE then (st, none)
  else if data.getD 2 0 = 0x02 then
    (st, some (buildDiscoveryResponse st.radio))
  else if data.getD 2 0 = 0x04 then
    if data.getD 3 0 = 0x01 then
      let r := { st.radio with running := true }
      ({ st with clientAddr := some addr, radio := r, streaming := true }, none)
    else if data.getD 3 0 = 0x00 then
      ({ st with radio := { st.radio with running := false }, streaming := false }, none)
    else (st, none)
  else if data.getD 2 0 = 0x01 then
    (handleHostData { st with clientAddr := some addr } data, none)
  else (st, none)

/-- Spec-side helper: the successor of a C0 response address in the cycle
0x00 → 0x08 → 0x10 → 0x18 → 0x00 the spec prescribes. -/
def nextRespAddr (a : ℕ) : ℕ :=
  if a = 0x00 then 0x08 else if a = 0x08 then 0x10 else if a = 0x10 then 0x18 else 0x00

/-- The echo-map well-formedness invariant: every stored recording is
non-empty and the stored playback position (default 0) is in range. -/
def EchoInv (eb : EchoBuffer) : Prop :=
  ∀ f l, List.lookup f eb.echoes = some l →
    l ≠ [] ∧ (List.lookup f eb.playback_pos).getD 0 < l.length

/-- Echo buffers reachable through the public operations of `EchoBuffer`. -/
inductive EchoReachable : EchoBuffer → Prop where
  | new (sr : ℕ) : EchoReachable (EchoBuffer.new sr)
  | start (f : ℕ) {eb : EchoBuffer} : EchoReachable eb → EchoReachable (eb.startRecording f)
  | feed (xs : List (ℚ × ℚ)) {eb : EchoBuffer} : EchoReachable eb → EchoReachable (eb.feed xs)
  | stop {eb : EchoBuffer} : EchoReachable eb → EchoReachable eb.stopRecording
  | gen (cosF sinF : ℚ → ℚ) (piQ : ℚ) (n rx sr : ℕ) {eb : EchoBuffer}
      {res : List (ℚ × ℚ)} {eb' : EchoBuffer} : EchoReachable eb →
      generateEcho cosF sinF piQ eb n rx sr = some (res, eb') → EchoReachable eb'

/-- A concrete radio used by witnesses and counterexamples: a Hermes with an
all-zero MAC, exactly as `RadioState::new(HpsdrHw::Hermes, [0; 6])`. -/
def demoRadio : RadioState :=
  RadioState.new .Hermes (fun _ => 0)

/-- A concrete idle server around `demoRadio`. -/
def demoServer : ServerState where
  radio := demoRadio
  echo := none
  controlIdx := 0
  clientAddr := none
  streaming := false

/-- A concrete all-zero sample provider for packet builds. -/
def zeroProv4 : ℕ → Bool → ℕ → ℕ → ℚ × ℚ :=
  fun _ _ _ _ => (0, 0)

/-- A concrete echo buffer with a recording in flight at 7_074_000 Hz holding
one staged sample. -/
def demoEchoRec : EchoBuffer :=
  ((EchoBuffer.new 48000).startRecording 7074000).feed [(1, 0)]

/-- A concrete echo buffer holding a committed one-sample recording at 5 Hz
and a freshly re-armed (empty) recording at the same frequency. -/
def demoEchoRe5 : EchoBuffer :=
  ((((EchoBuffer.new 48000).startRecording 5).feed [(1, 0)]).stopRecording).startRecording 5

/-- A concrete echo buffer with one committed recording at 7_000_000 Hz. -/
def demoEchoDone : EchoBuffer :=
  (((EchoBuffer.new 48000).startRecording 7000000).feed [(1, 0)]).stopRecording

/-! Helper lemmas shared by several claims. -/

theorem flatten_const_length {α : Type} (f : ℕ → List α) (c : ℕ)
    (h : ∀ i, (f i).length = c) :
    ∀ n, (List.flatten ((List.range n).map f)).length = n * c := by
  intro n
  induction n with
  | zero => simp
  | succ n ih =>
    rw [List.range_succ]
    simp [ih, h, Nat.succ_mul]

theorem packIQ24Bytes_length (s : ℚ × ℚ) : (packIQ24Bytes s).length = 6 := rfl

theorem fillSubframe_length (prov : ℕ → ℕ → ℚ × ℚ) (r : RadioState) (controlIdx : ℕ) :
    ((fillSubframe prov r controlIdx).1).length = 512 := by
  unfold fillSubframe
  set nddc := max r.nddc 1 with hn
  have hrow : ∀ i, ((List.flatten ((List.range nddc).map
      (fun ddc => packIQ24Bytes (prov ddc i)))) ++ [0, 0]).length = 6 * nddc + 2 := by
    intro i
    rw [List.length_append]
    rw [flatten_const_length (fun ddc => packIQ24Bytes (prov ddc i)) 6
      (fun _ => packIQ24Bytes_length _) nddc]
    simp [Nat.mul_comm]
  have hpayload := flatten_const_length _ _ hrow (504 / (6 * nddc + 2))
  have hple : 504 / (6 * nddc + 2) * (6 * nddc + 2) ≤ 504 := Nat.div_mul_le_self _ _
  simp only [List.length_append, List.length_cons, List.length_nil, List.length_replicate,
    hpayload]
  have hctrl :
      (if RESPONSE_ADDRS.getD (controlIdx % 4) 0 = 0x00 then
        [0x00, r.firmware_version, r.penny_version, 0x00]
      else if RESPONSE_ADDRS.getD (controlIdx % 4) 0 = 0x08 then
        be16 (if r.ptt then r.tx_drive * 10 else 0) ++
          be16 (if r.ptt then (r.tx_drive * r.tx_drive) >>> 4 else 0)
      else if RESPONSE_ADDRS.getD (controlIdx % 4) 0 = 0x10 then
        be16 (if r.ptt then max (((r.tx_drive * r.tx_drive) >>> 4) / 50) 1 else 0) ++ be16 3200
      else if RESPONSE_ADDRS.getD (controlIdx % 4) 0 = 0x18 then
        be16 (if r.ptt then r.tx_drive * 5 else 0) ++ be16 3200
      else [0, 0, 0, 0]).length = 4 := by
    split_ifs <;> rfl
  rw [hctrl]
  omega

theorem fillSubframe_c0 (prov : ℕ → ℕ → ℚ × ℚ) (r : RadioState) (controlIdx : ℕ) :
    ((fillSubframe prov r controlIdx).1).getD 3 0 =
      RESPONSE_ADDRS.getD (controlIdx % 4) 0 ||| 0x80 ||| (if r.ptt then 1 else 0) := rfl

theorem fillSubframe_idx (prov : ℕ → ℕ → ℚ × ℚ) (r : RadioState) (controlIdx : ℕ) :
    (fillSubframe prov r controlIdx).2 = (controlIdx + 1) % 4 := rfl

theorem next_seq_fst (r : RadioState) (s : String) : (r.next_seq s).1 = r.seq s := rfl

theorem next_seq_ptt (r : RadioState) (s : String) : ((r.next_seq s).2).ptt = r.ptt := rfl

theorem next_seq_seq (r : RadioState) (s : String) :
    ((r.next_seq s).2).seq s = (r.seq s + 1) % 4294967296 := by
  simp [RadioState.next_seq]

theorem buildDataPacket_c0A (prov : Bool → ℕ → ℕ → ℚ × ℚ) (r : RadioState) (i : ℕ) :
    ((buildDataPacket prov r i).1).getD 11 0 =
      RESPONSE_ADDRS.getD (i % 4) 0 ||| 0x80 ||| (if r.ptt then 1 else 0) := rfl

theorem be32_length (v : ℕ) : (be32 v).length = 4 := rfl

theorem getD_append_of_length (l1 l2 : List ℕ) (n m : ℕ) (h : l1.length = m) (hmn : m ≤ n) :
    (l1 ++ l2).getD n 0 = l2.getD (n - m) 0 := by
  subst h
  exact List.getD_append_right _ _ _ _ hmn

theorem buildDataPacket_c0B (prov : Bool → ℕ → ℕ → ℚ × ℚ) (r : RadioState) (i : ℕ) :
    ((buildDataPacket prov r i).1).getD 523 0 =
      RESPONSE_ADDRS.getD ((i + 1) % 4) 0 ||| 0x80 ||| (if r.ptt then 1 else 0) := by
  simp only [buildDataPacket]
  rw [getD_append_of_length _ _ 523 520
    (by simp [be32_length, fillSubframe_length]) (by norm_num)]
  have h3 : (523 - 520 : ℕ) = 3 := by norm_num
  rw [h3, fillSubframe_idx, fillSubframe_c0, next_seq_ptt]
  have h4 : (i + 1) % 4 % 4 = (i + 1) % 4 := by omega
  rw [h4]

theorem buildDataPacket_idx (prov : Bool → ℕ → ℕ → ℚ × ℚ) (r : RadioState) (i : ℕ) :
    (buildDataPacket prov r i).2.2 = (i + 2) % 4 := by
  show ((i + 1) % 4 + 1) % 4 = (i + 2) % 4
  omega

theorem buildDataPacket_length (prov : Bool → ℕ → ℕ → ℚ × ℚ) (r : RadioState) (i : ℕ) :
    ((buildDataPacket prov r i).1).length = 1032 := by
  simp [buildDataPacket, be32, fillSubframe_length]

theorem buildDataPacket_seq_bytes (prov : Bool → ℕ → ℕ → ℚ × ℚ) (r : RadioState) (i : ℕ) :
    (((buildDataPacket prov r i).1).drop 4).take 4 = be32 (r.seq ("p1_data")) := rfl

theorem buildDataPacket_radio (prov : Bool → ℕ → ℕ → ℚ × ℚ) (r : RadioState) (i : ℕ) :
    (buildDataPacket prov r i).2.1 = (r.next_seq ("p1_data")).2 := rfl

/-- Claim C2: across the stream of outbound sub-frames the C0 address cycles
through 0x00, 0x08, 0x10, 0x18 in that exact cyclic order, the rotation
counter increments exactly once per sub-frame (so the two sub-frames of one
data packet carry two consecutive addresses), and every written C0 byte is
`addr ||| 0x80 ||| ptt_bit` with `ptt_bit = 1` iff `ptt` is asserted. -/
theorem claim_C2 : ∀ (prov : ℕ → ℕ → ℚ × ℚ) (r : RadioState) (controlIdx : ℕ),
    ((fillSubframe prov r controlIdx).1).getD 3 0 =
      RESPONSE_ADDRS.getD (controlIdx % 4) 0 ||| 0x80 ||| (if r.ptt then 1 else 0) ∧
    (fillSubframe prov r controlIdx).2 = (controlIdx + 1) % 4 ∧
    RESPONSE_ADDRS.getD ((controlIdx + 1) % 4) 0 =
      nextRespAddr (RESPONSE_ADDRS.getD (controlIdx % 4) 0) ∧
    (∀ (provB : Bool → ℕ → ℕ → ℚ × ℚ) (rB : RadioState),
      ((buildDataPacket provB rB controlIdx).1).getD 11 0 =
        RESPONSE_ADDRS.getD (controlIdx % 4) 0 ||| 0x80 ||| (if rB.ptt then 1 else 0) ∧
      ((buildDataPacket provB rB controlIdx).1).getD 523 0 =
        RESPONSE_ADDRS.getD ((controlIdx + 1) % 4) 0 ||| 0x80 ||| (if rB.ptt then 1 else 0) ∧
      (buildDataPacket provB rB controlIdx).2.2 = (controlIdx + 2) % 4) := by
  intro prov r controlIdx
  refine ⟨fillSubframe_c0 prov r controlIdx, fillSubframe_idx prov r controlIdx, ?_,
    fun provB rB => ⟨buildDataPacket_c0A provB rB controlIdx,
      buildDataPacket_c0B provB rB controlIdx, buildDataPacket_idx provB rB controlIdx⟩⟩
  have hm : (controlIdx + 1) % 4 = (controlIdx % 4 + 1) % 4 := by omega
  have h4 : controlIdx % 4 = 0 ∨ controlIdx % 4 = 1 ∨ controlIdx % 4 = 2 ∨
      controlIdx % 4 = 3 := by omega
  rcases h4 with h | h | h | h <;> rw [hm, h] <;> rfl

theorem processControl_tx (r : RadioState) (eb : Option EchoBuffer) (c1 c2 c3 c4 : ℕ) :
    ((processControl r eb 0x02 c1 c2 c3 c4).1).tx_frequency = u32FromBe c1 c2 c3 c4 := by
  have h1 : (((0x02 : ℕ) &&& 0x01) != 0) = false := by decide
  have h2 : (0x02 : ℕ) &&& 0xFE = 0x02 := by decide
  cases hp : r.ptt <;>
    simp only [processControl, h1, h2, hp] <;>
    norm_num <;>
    split_ifs <;>
    simp_all

/-- Claim C5 (amended): after a control sub-frame with C0 = 0x02 and
C1..C4 = 00 6F 12 38, `tx_frequency` is the big-endian u32 of C1..C4, which is
7_279_160 (the spec's stated value 7_279_416 does not match these bytes). -/
theorem claim_C5 : ∀ (r : RadioState) (eb : Option EchoBuffer),
    ((processControl r eb 0x02 0x00 0x6F 0x12 0x38).1).tx_frequency =
      u32FromBe 0x00 0x6F 0x12 0x38 ∧
    u32FromBe 0x00 0x6F 0x12 0x38 = 7279160 := by
  intro r eb
  exact ⟨processControl_tx r eb 0x00 0x6F 0x12 0x38, by decide⟩

/-- Claim C5 counterexample: on the concrete radio, processing C0 = 0x02 with
C1..C4 = 00 6F 12 38 sets `tx_frequency` to 7_279_160, not the 7_279_416 the
claim asserts. -/
theorem claim_C5_counterexample :
    ((processControl demoRadio none 0x02 0x00 0x6F 0x12 0x38).1).tx_frequency = 7279160 ∧
    ((processControl demoRadio none 0x02 0x00 0x6F 0x12 0x38).1).tx_frequency ≠ 7279416 := by
  decide

theorem processControl_nddc (r : RadioState) (eb : Option EchoBuffer) (c0 c1 c2 c3 c4 : ℕ)
    (h : c0 &&& 0xFE = 0x00) :
    ((processControl r eb c0 c1 c2 c3 c4).1).nddc = ((c4 >>> 3) &&& 0x07) + 1 := by
  simp only [processControl, h]
  norm_num
  split_ifs <;>
    (try cases hcs : codeToSampleRate (c1 &&& 0x03)) <;>
    simp_all

/-- Claim C4 (amended): every inbound control write of the DDC count
(address 0x00) sets `nddc = ((C4 >> 3) & 0x07) + 1`, which always lies in
1..=8 — but the code does not clamp it to `hw.max_ddcs`, so it can exceed the
hardware maximum (see the counterexample). -/
theorem claim_C4 : ∀ (r : RadioState) (eb : Option EchoBuffer) (c0 c1 c2 c3 c4 : ℕ),
    c0 &&& 0xFE = 0x00 →
    1 ≤ ((processControl r eb c0 c1 c2 c3 c4).1).nddc ∧
    ((processControl r eb c0 c1 c2 c3 c4).1).nddc ≤ 8 := by
  intro r eb c0 c1 c2 c3 c4 h
  rw [processControl_nddc r eb c0 c1 c2 c3 c4 h]
  have hand : (c4 >>> 3) &&& 0x07 ≤ 7 := Nat.and_le_right
  omega

theorem claim_C4_witness :
    ((0x00 : ℕ) &&& 0xFE = 0x00) ∧
    (1 ≤ ((processControl demoRadio none 0x00 0 0 0 0x38).1).nddc ∧
      ((processControl demoRadio none 0x00 0 0 0 0x38).1).nddc ≤ 8) :=
  ⟨by decide, claim_C4 demoRadio none 0x00 0 0 0 0x38 (by decide)⟩

set_option maxRecDepth 8000 in
/-- Claim C4 counterexample: a Hermes radio (max_ddcs = 4) that receives a
full data packet whose control sub-frame has address 0x00 and C4 = 0x38 ends
with nddc = 8 > 4, so the claimed invariant `nddc ≤ hw.max_ddcs` fails on a
reachable state. -/
theorem claim_C4_counterexample :
    ((handleDatagram demoServer 7
        ([0xEF, 0xFE, 0x01, 0x06, 0, 0, 0, 0,
          0x7F, 0x7F, 0x7F, 0x00, 0x00, 0x00, 0x00, 0x38] ++
          List.replicate 1016 0)).1).radio.nddc = 8 ∧
    demoRadio.hw.max_ddcs = 4 ∧
    ¬(((handleDatagram demoServer 7
        ([0xEF, 0xFE, 0x01, 0x06, 0, 0, 0, 0,
          0x7F, 0x7F, 0x7F, 0x00, 0x00, 0x00, 0x00, 0x38] ++
          List.replicate 1016 0)).1).radio.nddc ≤
      ((handleDatagram demoServer 7
        ([0xEF, 0xFE, 0x01, 0x06, 0, 0, 0, 0,
          0x7F, 0x7F, 0x7F, 0x00, 0x00, 0x00, 0x00, 0x38] ++
          List.replicate 1016 0)).1).radio.hw.max_ddcs) := by
  refine ⟨?_, by decide, ?_⟩ <;> decide

/-- Claim C6: on an outbound sub-frame whose rotating C0 address is 0x08
(rotation counter ≡ 1 mod 4), C1..C2 carry `tx_drive * 10` and C3..C4 carry
`(tx_drive²) >> 4`, both as big-endian u16, when PTT is asserted; both fields
are 0 when PTT is off. -/
theorem claim_C6 : ∀ (prov : ℕ → ℕ → ℚ × ℚ) (r : RadioState) (controlIdx : ℕ),
    controlIdx % 4 = 1 → r.tx_drive < 256 →
    ([((fillSubframe prov r controlIdx).1).getD 4 0,
      ((fillSubframe prov r controlIdx).1).getD 5 0] =
        be16 (if r.ptt then r.tx_drive * 10 else 0)) ∧
    ([((fillSubframe prov r controlIdx).1).getD 6 0,
      ((fillSubframe prov r controlIdx).1).getD 7 0] =
        be16 (if r.ptt then (r.tx_drive * r.tx_drive) >>> 4 else 0)) ∧
    r.tx_drive * 10 < 65536 ∧ (r.tx_drive * r.tx_drive) >>> 4 < 65536 := by
  intro prov r controlIdx hidx hd
  have hdd : r.tx_drive * r.tx_drive < 65536 := Nat.mul_lt_mul'' hd hd
  refine ⟨?_, ?_, by omega, ?_⟩
  · simp only [fillSubframe, hidx]
    norm_num [RESPONSE_ADDRS, be16]
  · simp only [fillSubframe, hidx]
    norm_num [RESPONSE_ADDRS, be16]
  · have hle : (r.tx_drive * r.tx_drive) >>> 4 ≤ r.tx_drive * r.tx_drive := by
      rw [Nat.shiftRight_eq_div_pow]
      exact Nat.div_le_self _ _
    exact lt_of_le_of_lt hle hdd

/-- Claim C6 witness: with ptt = true and tx_drive = 100 the 0x08 sub-frame
encodes 1000 and 625 as big-endian u16 pairs. -/
theorem claim_C6_witness :
    (1 % 4 = 1) ∧
    ({ demoRadio with ptt := true, tx_drive := 100 } : RadioState).tx_drive < 256 ∧
    (100 * 10 = 1000 ∧ (100 * 100) >>> 4 = 625 ∧
      be16 1000 = [3, 232] ∧ be16 625 = [2, 113]) ∧
    (([((fillSubframe (fun _ _ => (0, 0)) { demoRadio with ptt := true, tx_drive := 100 } 1).1).getD 4 0,
      ((fillSubframe (fun _ _ => (0, 0)) { demoRadio with ptt := true, tx_drive := 100 } 1).1).getD 5 0] =
        be16 (if ({ demoRadio with ptt := true, tx_drive := 100 } : RadioState).ptt then
          ({ demoRadio with ptt := true, tx_drive := 100 } : RadioState).tx_drive * 10 else 0)) ∧
    ([((fillSubframe (fun _ _ => (0, 0)) { demoRadio with ptt := true, tx_drive := 100 } 1).1).getD 6 0,
      ((fillSubframe (fun _ _ => (0, 0)) { demoRadio with ptt := true, tx_drive := 100 } 1).1).getD 7 0] =
        be16 (if ({ demoRadio with ptt := true, tx_drive := 100 } : RadioState).ptt then
          (({ demoRadio with ptt := true, tx_drive := 100 } : RadioState).tx_drive *
            ({ demoRadio with ptt := true, tx_drive := 100 } : RadioState).tx_drive) >>> 4 else 0)) ∧
    ({ demoRadio with ptt := true, tx_drive := 100 } : RadioState).tx_drive * 10 < 65536 ∧
    (({ demoRadio with ptt := true, tx_drive := 100 } : RadioState).tx_drive *
      ({ demoRadio with ptt := true, tx_drive := 100 } : RadioState).tx_drive) >>> 4 < 65536) :=
  ⟨by decide, by decide, by decide,
    claim_C6 (fun _ _ => (0, 0)) { demoRadio with ptt := true, tx_drive := 100 } 1
      (by decide) (by decide)⟩

/-- Claim C1: every datagram with the magic and type byte 0x02 gets the
60-byte discovery response laid out as the code writes it, and answering
discovery changes no state (the handler returns the state unchanged). -/
theorem claim_C1 : ∀ (st : ServerState) (a : ℕ) (data : List ℕ),
    4 ≤ data.length → data.getD 0 0 = 0xEF → data.getD 1 0 = 0xFE → data.getD 2 0 = 0x02 →
    handleDatagram st a data = (st, some (buildDiscoveryResponse st.radio)) ∧
    (buildDiscoveryResponse st.radio).length = 60 ∧
    (buildDiscoveryResponse st.radio).getD 0 0 = 0xEF ∧
    (buildDiscoveryResponse st.radio).getD 1 0 = 0xFE ∧
    (buildDiscoveryResponse st.radio).getD 2 0 = 0x02 ∧
    (∀ i : Fin 6, (buildDiscoveryResponse st.radio).getD (3 + i.1) 0 = st.radio.mac i) ∧
    (buildDiscoveryResponse st.radio).getD 9 0 = st.radio.firmware_version ∧
    (buildDiscoveryResponse st.radio).getD 10 0 = st.radio.hw.code ∧
    (buildDiscoveryResponse st.radio).getD 11 0 = 0 ∧
    (buildDiscoveryResponse st.radio).getD 12 0 = 0 ∧
    (buildDiscoveryResponse st.radio).getD 13 0 = 0 ∧
    (∀ i : Fin 4,
      (buildDiscoveryResponse st.radio).getD (14 + i.1) 0 = st.radio.mercury_versions i) ∧
    (buildDiscoveryResponse st.radio).getD 18 0 = st.radio.penny_version ∧
    (buildDiscoveryResponse st.radio).getD 19 0 = st.radio.metis_version ∧
    (buildDiscoveryResponse st.radio).getD 20 0 = st.radio.nddc ∧
    (buildDiscoveryResponse st.radio).drop 21 = List.replicate 39 0 := by
  intro st a data hlen h0 h1 h2
  have hc : ¬(data.length < 4 ∨ data.getD 0 0 ≠ 0xEF ∨ data.getD 1 0 ≠ 0xFE) := by
    push_neg
    exact ⟨by omega, h0, h1⟩
  refine ⟨?_, rfl, rfl, rfl, rfl, ?_, rfl, rfl, rfl, rfl, rfl, ?_, rfl, rfl, rfl, rfl⟩
  · unfold handleDatagram
    rw [if_neg hc, if_pos h2]
  · intro i
    fin_cases i <;> rfl
  · intro i
    fin_cases i <;> rfl

theorem claim_C1_witness :
    (4 ≤ ([0xEF, 0xFE, 0x02, 0] : List ℕ).length) ∧
    ([0xEF, 0xFE, 0x02, 0] : List ℕ).getD 0 0 = 0xEF ∧
    ([0xEF, 0xFE, 0x02, 0] : List ℕ).getD 1 0 = 0xFE ∧
    ([0xEF, 0xFE, 0x02, 0] : List ℕ).getD 2 0 = 0x02 ∧
    (handleDatagram demoServer 3 [0xEF, 0xFE, 0x02, 0]).2 =
      some (buildDiscoveryResponse demoServer.radio) :=
  ⟨by decide, by decide, by decide, by decide,
    congrArg Prod.snd (claim_C1 demoServer 3 [0xEF, 0xFE, 0x02, 0]
      (by decide) (by decide) (by decide) (by decide)).1⟩

/-- Claim C9 (amended): datagrams that are shorter than 4 bytes, carry the
wrong magic, or carry an unknown type byte are dropped with no reply and no
state change at all; a type-0x01 datagram whose payload is dropped (too short
for a data packet, or with both sub-frame sync words missing) also produces no
reply and leaves the radio, echo and rotation state unchanged, but it does
latch the sender as the client address (see the counterexample for why the
original claim's "no observable state changes" fails). -/
theorem claim_C9 : ∀ (st : ServerState) (a : ℕ) (data : List ℕ),
    ((data.length < 4 ∨ data.getD 0 0 ≠ 0xEF ∨ data.getD 1 0 ≠ 0xFE) →
      handleDatagram st a data = (st, none)) ∧
    ((4 ≤ data.length ∧ data.getD 0 0 = 0xEF ∧ data.getD 1 0 = 0xFE ∧
      data.getD 2 0 ≠ 0x01 ∧ data.getD 2 0 ≠ 0x02 ∧ data.getD 2 0 ≠ 0x04) →
      handleDatagram st a data = (st, none)) ∧
    ((4 ≤ data.length ∧ data.getD 0 0 = 0xEF ∧ data.getD 1 0 = 0xFE ∧
      data.getD 2 0 = 0x01 ∧
      (data.length < 1032 ∨
        (¬(data.getD 8 0 = 0x7F ∧ data.getD 9 0 = 0x7F ∧ data.getD 10 0 = 0x7F) ∧
         ¬(data.getD 520 0 = 0x7F ∧ data.getD 521 0 = 0x7F ∧ data.getD 522 0 = 0x7F)))) →
      handleDatagram st a data = ({ st with clientAddr := some a }, none)) := by
  intro st a data
  refine ⟨?_, ?_, ?_⟩
  · intro h
    unfold handleDatagram
    rw [if_pos h]
  · rintro ⟨hlen, h0, h1, ht1, ht2, ht4⟩
    have hc : ¬(data.length < 4 ∨ data.getD 0 0 ≠ 0xEF ∨ data.getD 1 0 ≠ 0xFE) := by
      push_neg
      exact ⟨by omega, h0, h1⟩
    unfold handleDatagram
    rw [if_neg hc, if_neg ht2, if_neg ht4, if_neg ht1]
  · rintro ⟨hlen, h0, h1, ht1, hdrop⟩
    have hc : ¬(data.length < 4 ∨ data.getD 0 0 ≠ 0xEF ∨ data.getD 1 0 ≠ 0xFE) := by
      push_neg
      exact ⟨by omega, h0, h1⟩
    have ht2 : ¬ data.getD 2 0 = 0x02 := by rw [ht1]; norm_num
    have ht4 : ¬ data.getD 2 0 = 0x04 := by rw [ht1]; norm_num
    unfold handleDatagram
    rw [if_neg hc, if_neg ht2, if_neg ht4, if_pos ht1]
    have hbody : handleHostData { st with clientAddr := some a } data =
        { st with clientAddr := some a } := by
      rcases hdrop with hshort | ⟨hs8, hs520⟩
      · unfold handleHostData
        rw [if_pos hshort]
      · by_cases hlen2 : data.length < 1032
        · unfold handleHostData
          rw [if_pos hlen2]
        · unfold handleHostData
          rw [if_neg hlen2]
          unfold processSubframe
          rw [if_neg hs8, if_neg hs520]
    rw [hbody]

set_option maxRecDepth 8000 in
/-- Claim C9 counterexample: a full-length type-0x01 datagram with no
sub-frame sync, arriving from a new address, is dropped without a reply but
still changes observable state — the latched client address moves from 1 to
2, contradicting "no observable state changes". -/
theorem claim_C9_counterexample :
    ((handleDatagram { demoServer with clientAddr := some 1, streaming := true } 2
        ([0xEF, 0xFE, 0x01, 0x00] ++ List.replicate 1028 0)).1).clientAddr = some 2 ∧
    ({ demoServer with clientAddr := some 1, streaming := true } : ServerState).clientAddr =
      some 1 ∧
    (handleDatagram { demoServer with clientAddr := some 1, streaming := true } 2
        ([0xEF, 0xFE, 0x01, 0x00] ++ List.replicate 1028 0)).2 = none := by
  refine ⟨?_, rfl, ?_⟩ <;> decide

theorem claim_C9_witness :
    (([0x00, 0x01] : List ℕ).length < 4 ∨ ([0x00, 0x01] : List ℕ).getD 0 0 ≠ 0xEF ∨
      ([0x00, 0x01] : List ℕ).getD 1 0 ≠ 0xFE) ∧
    handleDatagram demoServer 5 [0x00, 0x01] = (demoServer, none) ∧
    (4 ≤ ([0xEF, 0xFE, 0x09, 0x00] : List ℕ).length ∧
      ([0xEF, 0xFE, 0x09, 0x00] : List ℕ).getD 0 0 = 0xEF ∧
      ([0xEF, 0xFE, 0x09, 0x00] : List ℕ).getD 1 0 = 0xFE ∧
      ([0xEF, 0xFE, 0x09, 0x00] : List ℕ).getD 2 0 ≠ 0x01 ∧
      ([0xEF, 0xFE, 0x09, 0x00] : List ℕ).getD 2 0 ≠ 0x02 ∧
      ([0xEF, 0xFE, 0x09, 0x00] : List ℕ).getD 2 0 ≠ 0x04) ∧
    handleDatagram demoServer 5 [0xEF, 0xFE, 0x09, 0x00] = (demoServer, none) ∧
    handleDatagram demoServer 5 [0xEF, 0xFE, 0x01, 0x00] =
      ({ demoServer with clientAddr := some 5 }, none) :=
  ⟨by decide, (claim_C9 demoServer 5 [0x00, 0x01]).1 (by decide),
    by decide, (claim_C9 demoServer 5 [0xEF, 0xFE, 0x09, 0x00]).2.1 (by decide),
    (claim_C9 demoServer 5 [0xEF, 0xFE, 0x01, 0x00]).2.2 (by decide)⟩

theorem buildPackets_seq : ∀ (N : ℕ) (prov : ℕ → Bool → ℕ → ℕ → ℚ × ℚ)
    (r : RadioState) (i k : ℕ), k < N → r.seq ("p1_data") < 4294967296 →
    ((buildPackets prov N r i).1.getD k []).length = 1032 ∧
    (((buildPackets prov N r i).1.getD k []).drop 4).take 4 =
      be32 ((r.seq ("p1_data") + k) % 4294967296) := by
  intro N
  induction N with
  | zero =>
    intro prov r i k hk hseq
    exact absurd hk (Nat.not_lt_zero k)
  | succ n ih =>
    intro prov r i k hk hseq
    cases k with
    | zero =>
      constructor
      · show ((buildDataPacket (prov 0) r i).1).length = 1032
        exact buildDataPacket_length _ _ _
      · show (((buildDataPacket (prov 0) r i).1).drop 4).take 4 = _
        rw [buildDataPacket_seq_bytes]
        congr 1
        omega
    | succ k' =>
      have hstep : ∀ m : List (List ℕ) × RadioState × ℕ,
          m = buildPackets (fun k => prov (k + 1)) n
            ((buildDataPacket (prov 0) r i).2.1) ((buildDataPacket (prov 0) r i).2.2) →
          (buildPackets prov (n + 1) r i).1.getD (k' + 1) [] = m.1.getD k' [] := by
        intro m hm
        subst hm
        rfl
      rw [hstep _ rfl]
      have hseq' : ((buildDataPacket (prov 0) r i).2.1).seq ("p1_data") =
          (r.seq ("p1_data") + 1) % 4294967296 := by
        rw [buildDataPacket_radio, next_seq_seq]
      have h32 : ((buildDataPacket (prov 0) r i).2.1).seq ("p1_data") < 4294967296 := by
        rw [hseq']
        omega
      obtain ⟨hl, hb⟩ := ih (fun k => prov (k + 1)) ((buildDataPacket (prov 0) r i).2.1)
        ((buildDataPacket (prov 0) r i).2.2) k' (by omega) h32
      refine ⟨hl, ?_⟩
      rw [hb, hseq']
      congr 1
      rw [Nat.mod_add_mod]
      congr 1
      omega

/-- Claim C3: across N outbound data packets the big-endian u32 sequence
numbers at bytes [4..8] form the contiguous sequence s, s+1, …, s+N−1 modulo
2^32, and `next_seq` returns the current counter and then increments it with
wrapping, once per packet. -/
theorem claim_C3 : ∀ (prov : ℕ → Bool → ℕ → ℕ → ℚ × ℚ) (r : RadioState)
    (controlIdx N k : ℕ), k < N → r.seq ("p1_data") < 4294967296 →
    (((buildPackets prov N r controlIdx).1.getD k []).length = 1032 ∧
     (((buildPackets prov N r controlIdx).1.getD k []).drop 4).take 4 =
       be32 ((r.seq ("p1_data") + k) % 4294967296)) ∧
    (r.next_seq ("p1_data")).1 = r.seq ("p1_data") ∧
    ((r.next_seq ("p1_data")).2).seq ("p1_data") =
      (r.seq ("p1_data") + 1) % 4294967296 :=
  fun prov r i N k hk hs =>
    ⟨buildPackets_seq N prov r i k hk hs, next_seq_fst r _, next_seq_seq r _⟩

theorem claim_C3_witness :
    0 < 1 ∧ demoRadio.seq ("p1_data") < 4294967296 ∧
    ((((buildPackets zeroProv4 1 demoRadio 0).1.getD 0 []).length = 1032 ∧
      (((buildPackets zeroProv4 1 demoRadio 0).1.getD 0 []).drop 4).take 4 =
        be32 ((demoRadio.seq ("p1_data") + 0) % 4294967296)) ∧
     (demoRadio.next_seq ("p1_data")).1 = demoRadio.seq ("p1_data") ∧
     ((demoRadio.next_seq ("p1_data")).2).seq ("p1_data") =
       (demoRadio.seq ("p1_data") + 1) % 4294967296) :=
  ⟨Nat.zero_lt_one, by decide,
    claim_C3 zeroProv4 demoRadio 0 1 0 Nat.zero_lt_one (by decide)⟩

theorem lookup_updMap_self {α : Type} (l : List (ℕ × α)) (k : ℕ) (v : α) :
    List.lookup k (updMap l k v) = some v := by
  simp [updMap, List.lookup]

theorem lookup_filter_ne {α : Type} (l : List (ℕ × α)) (k g : ℕ) (h : g ≠ k) :
    List.lookup g (l.filter (fun p => p.1 != k)) = List.lookup g l := by
  induction l with
  | nil => rfl
  | cons p t ih =>
    obtain ⟨pk, pv⟩ := p
    rw [List.filter_cons]
    by_cases hp : pk = k
    · subst hp
      have hb : (((pk, pv) : ℕ × α).1 != pk) = false := by simp
      rw [hb]
      simp only [Bool.false_eq_true, if_false]
      rw [ih]
      have hg : (g == pk) = false := by simp [h]
      simp [List.lookup, hg]
    · have hb : (((pk, pv) : ℕ × α).1 != k) = true := by simp [hp]
      rw [hb]
      simp only [if_true]
      by_cases hg : g = pk
      · subst hg
        simp [List.lookup]
      · have hgb : (g == pk) = false := by simp [hg]
        simp [List.lookup, hgb, ih]

theorem lookup_updMap_ne {α : Type} (l : List (ℕ × α)) (k g : ℕ) (v : α) (h : g ≠ k) :
    List.lookup g (updMap l k v) = List.lookup g l := by
  have hgb : (g == k) = false := by simp [h]
  simp only [updMap, List.lookup, hgb]
  exact lookup_filter_ne l k g h

theorem truncToInt_eq_floor (q : ℚ) : truncToInt q = if 0 ≤ q then ⌊q⌋ else -⌊-q⌋ := by
  unfold truncToInt
  by_cases hq : 0 ≤ q
  · rw [if_pos hq, Rat.floor_def]
    exact Int.tdiv_eq_ediv (Rat.num_nonneg.mpr hq) (Int.natCast_nonneg _)
  · rw [if_neg hq, Rat.floor_def]
    rw [Rat.neg_num, Rat.neg_den]
    have h3 : (0 : ℤ) ≤ -q.num := by
      have h4 : ¬(0 : ℤ) ≤ q.num := fun hc => hq (Rat.num_nonneg.mp hc)
      omega
    have h4 : (-q.num).tdiv (q.den : ℤ) = -q.num / (q.den : ℤ) :=
      Int.tdiv_eq_ediv h3 (Int.natCast_nonneg _)
    have h5 : -((-q.num).tdiv (q.den : ℤ)) = q.num.tdiv (q.den : ℤ) := by
      rw [Int.neg_tdiv, Int.neg_neg]
    rw [← h5, h4]

/-- On a buffer with the emulator's construction parameters (48 kHz, 10 s) the
commit cap is 480_000 samples. -/
theorem maxSamples_48000 (eb : EchoBuffer) (hsr : eb.sample_rate = 48000)
    (hmd : eb.max_duration = 10) : eb.maxSamples = 480000 := by
  unfold EchoBuffer.maxSamples
  rw [hsr, hmd]
  have h1 : ((48000 : ℕ) : ℚ) * 10 = 480000 := by norm_num
  rw [h1]
  unfold ratToUsize
  rw [truncToInt_eq_floor]
  norm_num
  decide

theorem commit_store (eb : EchoBuffer) (hne : eb.recording ≠ [])
    (h0 : eb.recording_freq ≠ 0) (hmax : 1 ≤ eb.maxSamples) :
    eb.commit = { eb with
      recording := ([] : List (ℚ × ℚ))
      echoes := updMap eb.echoes eb.recording_freq (eb.recording.take eb.maxSamples)
      playback_pos := updMap eb.playback_pos eb.recording_freq 0 } := by
  have htake : eb.recording.take eb.maxSamples ≠ [] := by
    intro hnil
    have hlen := congrArg List.length hnil
    rw [List.length_take, List.length_nil] at hlen
    have hpos : 0 < eb.recording.length := List.length_pos.mpr hne
    omega
  unfold EchoBuffer.commit
  rw [if_neg hne, if_neg h0, if_neg htake]

theorem commit_keep (eb : EchoBuffer) (h : eb.recording = []) : eb.commit = eb := by
  unfold EchoBuffer.commit
  rw [if_pos h]

theorem stopRecording_eq (eb : EchoBuffer) (h : eb.is_recording = true) :
    eb.stopRecording = { eb.commit with is_recording := false } := by
  unfold EchoBuffer.stopRecording
  rw [if_pos h]

theorem startRecording_not (eb : EchoBuffer) (f : ℕ) (h : eb.is_recording = false) :
    eb.startRecording f =
      { eb with recording := [], recording_freq := f, is_recording := true } := by
  unfold EchoBuffer.startRecording
  rw [h]
  rfl

/-- Claim C7 (amended): when a recording commit is triggered (by
`stop_recording` or by `start_recording` during a recording) with at least one
staged sample (and the positive capacity `sample_rate·max_duration` the
emulator always has): frequency 0 discards the staged samples and leaves the
echo map untouched; a nonzero frequency stores the first
min(K, sample_rate·max_duration) staged samples under that frequency,
replacing any prior recording there, and resets its playback position to 0.
(The unamended claim fails for K = 0: an empty staging area is rejected
before insertion and the prior recording survives — see the
counterexample.) -/
theorem claim_C7 : ∀ (eb : EchoBuffer) (f : ℕ),
    eb.is_recording = true → eb.recording ≠ [] → 1 ≤ eb.maxSamples →
    ((eb.recording_freq = 0 →
        eb.stopRecording.echoes = eb.echoes ∧
        eb.stopRecording.playback_pos = eb.playback_pos ∧
        eb.stopRecording.recording = [] ∧
        (eb.startRecording f).echoes = eb.echoes ∧
        (eb.startRecording f).recording = []) ∧
     (eb.recording_freq ≠ 0 →
        List.lookup eb.recording_freq eb.stopRecording.echoes =
          some (eb.recording.take eb.maxSamples) ∧
        (eb.recording.take eb.maxSamples).length =
          min eb.recording.length eb.maxSamples ∧
        List.lookup eb.recording_freq eb.stopRecording.playback_pos = some 0 ∧
        List.lookup eb.recording_freq (eb.startRecording f).echoes =
          some (eb.recording.take eb.maxSamples) ∧
        List.lookup eb.recording_freq (eb.startRecording f).playback_pos = some 0)) := by
  intro eb f hrec hne hmax
  have hcommit0 : eb.recording_freq = 0 → eb.commit = { eb with recording := [] } := by
    intro h0
    unfold EchoBuffer.commit
    rw [if_neg hne, if_pos h0]
  have htake : eb.recording.take eb.maxSamples ≠ [] := by
    intro hnil
    have hlen := congrArg List.length hnil
    rw [List.length_take, List.length_nil] at hlen
    have hpos : 0 < eb.recording.length := List.length_pos.mpr hne
    omega
  have hcommitN : eb.recording_freq ≠ 0 →
      eb.commit = { eb with
        recording := []
        echoes := updMap eb.echoes eb.recording_freq (eb.recording.take eb.maxSamples)
        playback_pos := updMap eb.playback_pos eb.recording_freq 0 } := by
    intro h0
    unfold EchoBuffer.commit
    rw [if_neg hne, if_neg h0, if_neg htake]
  have hstop : eb.stopRecording = { eb.commit with is_recording := false } := by
    unfold EchoBuffer.stopRecording
    rw [if_pos hrec]
  have hstart : eb.startRecording f = { eb.commit with
      recording := [], recording_freq := f, is_recording := true } := by
    unfold EchoBuffer.startRecording
    rw [if_pos hrec]
  constructor
  · intro h0
    rw [hstop, hstart, hcommit0 h0]
    exact ⟨rfl, rfl, rfl, rfl, rfl⟩
  · intro h0
    rw [hstop, hstart, hcommitN h0]
    refine ⟨lookup_updMap_self _ _ _, ?_, lookup_updMap_self _ _ _,
      lookup_updMap_self _ _ _, lookup_updMap_self _ _ _⟩
    rw [List.length_take]
    exact Nat.min_comm _ _

/-- Claim C7 counterexample: committing with K = 0 staged samples (MOX raised
and immediately dropped again) does not store an empty recording — the prior
recording at the same frequency survives and its playback position is not
reset, contradicting the claim's "the first min(K, …) samples are stored …
replacing any prior recording". -/
theorem claim_C7_counterexample :
    demoEchoRe5.is_recording = true ∧
    demoEchoRe5.recording = [] ∧
    demoEchoRe5.recording_freq = 5 ∧
    List.lookup 5 demoEchoRe5.stopRecording.echoes = some [((1 : ℚ), (0 : ℚ))] ∧
    ¬(List.lookup 5 demoEchoRe5.stopRecording.echoes = some ([] : List (ℚ × ℚ))) := by
  have hms : (((EchoBuffer.new 48000).startRecording 5).feed
      [((1 : ℚ), (0 : ℚ))]).maxSamples = 480000 := maxSamples_48000 _ rfl rfl
  have hstore := commit_store (((EchoBuffer.new 48000).startRecording 5).feed
      [((1 : ℚ), (0 : ℚ))]) (by decide) (by decide) (by rw [hms]; omega)
  have hstop := stopRecording_eq (((EchoBuffer.new 48000).startRecording 5).feed
      [((1 : ℚ), (0 : ℚ))]) rfl
  have hA : (((EchoBuffer.new 48000).startRecording 5).feed
      [((1 : ℚ), (0 : ℚ))]).stopRecording.echoes =
      updMap (((EchoBuffer.new 48000).startRecording 5).feed
        [((1 : ℚ), (0 : ℚ))]).echoes 5 [((1 : ℚ), (0 : ℚ))] := by
    simp only [hstop, hstore, hms]
    rfl
  have hArec : (((EchoBuffer.new 48000).startRecording 5).feed
      [((1 : ℚ), (0 : ℚ))]).stopRecording.is_recording = false := by
    rw [hstop]
  have hre5 : demoEchoRe5 = { (((EchoBuffer.new 48000).startRecording 5).feed
      [((1 : ℚ), (0 : ℚ))]).stopRecording with
      recording := [], recording_freq := 5, is_recording := true } :=
    startRecording_not _ 5 hArec
  have hfinal : demoEchoRe5.stopRecording.echoes = demoEchoRe5.echoes := by
    rw [stopRecording_eq demoEchoRe5 (by rw [hre5]),
      commit_keep demoEchoRe5 (by rw [hre5])]
  have hlook : List.lookup 5 demoEchoRe5.stopRecording.echoes =
      some [((1 : ℚ), (0 : ℚ))] := by
    rw [hfinal, hre5]
    show List.lookup 5 (((EchoBuffer.new 48000).startRecording 5).feed
      [((1 : ℚ), (0 : ℚ))]).stopRecording.echoes = _
    rw [hA]
    exact lookup_updMap_self _ _ _
  refine ⟨by rw [hre5], by rw [hre5], by rw [hre5], hlook, ?_⟩
  rw [hlook]
  intro hc
  exact absurd (Option.some.inj hc) (by decide)

theorem claim_C7_witness :
    demoEchoRec.is_recording = true ∧
    demoEchoRec.recording ≠ [] ∧
    1 ≤ demoEchoRec.maxSamples ∧
    demoEchoRec.recording_freq ≠ 0 ∧
    (List.lookup demoEchoRec.recording_freq demoEchoRec.stopRecording.echoes =
        some (demoEchoRec.recording.take demoEchoRec.maxSamples) ∧
      (demoEchoRec.recording.take demoEchoRec.maxSamples).length =
        min demoEchoRec.recording.length demoEchoRec.maxSamples ∧
      List.lookup demoEchoRec.recording_freq demoEchoRec.stopRecording.playback_pos =
        some 0 ∧
      List.lookup demoEchoRec.recording_freq (demoEchoRec.startRecording 6000000).echoes =
        some (demoEchoRec.recording.take demoEchoRec.maxSamples) ∧
      List.lookup demoEchoRec.recording_freq
        (demoEchoRec.startRecording 6000000).playback_pos = some 0) :=
  ⟨by decide, by decide, by rw [maxSamples_48000 demoEchoRec rfl rfl]; omega, by decide,
    (claim_C7 demoEchoRec 6000000 (by decide) (by decide)
      (by rw [maxSamples_48000 demoEchoRec rfl rfl]; omega)).2 (by decide)⟩

theorem copyCircular_spec (ebuf : List (ℚ × ℚ)) :
    ∀ remaining pos, ebuf ≠ [] → pos < ebuf.length →
    ∃ out p, copyCircular ebuf pos remaining = some (out, p) ∧
      out.length = remaining ∧ p < ebuf.length := by
  intro remaining
  induction remaining using Nat.strong_induction_on with
  | _ remaining ih =>
    intro pos hne hpos
    by_cases h0 : remaining = 0
    · subst h0
      refine ⟨[], pos, ?_, rfl, hpos⟩
      rw [copyCircular]
      simp
    · have hlen : 0 < ebuf.length := List.length_pos.mpr hne
      have hav : min remaining (ebuf.length - pos) ≠ 0 := by omega
      have hrec : remaining - min remaining (ebuf.length - pos) < remaining := by omega
      have hpos' : (pos + min remaining (ebuf.length - pos)) % ebuf.length < ebuf.length :=
        Nat.mod_lt _ hlen
      obtain ⟨out, p, heq, hl, hp⟩ := ih _ hrec
        ((pos + min remaining (ebuf.length - pos)) % ebuf.length) hne hpos'
      refine ⟨(ebuf.drop pos).take (min remaining (ebuf.length - pos)) ++ out, p, ?_, ?_, hp⟩
      · rw [copyCircular]
        rw [dif_neg h0]
        simp only [dif_neg hav, heq]
      · rw [List.length_append, List.length_take, List.length_drop, hl]
        omega

theorem lookup_isSome_of_mem_keys {α : Type} (l : List (ℕ × α)) (f : ℕ)
    (h : f ∈ l.map (fun p => p.1)) : (List.lookup f l).isSome := by
  induction l with
  | nil => simp at h
  | cons p t ih =>
    obtain ⟨pk, pv⟩ := p
    rw [List.map_cons, List.mem_cons] at h
    by_cases hf : f = pk
    · subst hf
      simp [List.lookup]
    · have hmem : f ∈ t.map (fun p => p.1) := by tauto
      have hfb : (f == pk) = false := by simp [hf]
      simp [List.lookup, hfb, ih hmem]

theorem genLoop_spec (cosF sinF : ℚ → ℚ) (piQ : ℚ) (n rx sr : ℕ) :
    ∀ (freqs : List ℕ) (eb : EchoBuffer) (result : List (ℚ × ℚ)),
    EchoInv eb → (∀ f ∈ freqs, (List.lookup f eb.echoes).isSome) → result.length = n →
    ∃ res eb', genLoop cosF sinF piQ n rx sr freqs eb result = some (res, eb') ∧
      res.length = n ∧ eb'.echoes = eb.echoes ∧ EchoInv eb' := by
  intro freqs
  induction freqs with
  | nil =>
    intro eb result hinv hk hlen
    exact ⟨result, eb, rfl, hlen, rfl, hinv⟩
  | cons f rest ih =>
    intro eb result hinv hk hlen
    rw [genLoop]
    by_cases hskip : |(rx : ℚ) - (f : ℚ)| > (sr : ℚ) / 2
    · rw [if_pos hskip]
      exact ih eb result hinv (fun g hg => hk g (List.mem_cons_of_mem f hg)) hlen
    · rw [if_neg hskip]
      have hf := hk f (List.mem_cons_self f rest)
      obtain ⟨l, hl⟩ := Option.isSome_iff_exists.mp hf
      obtain ⟨hlne, hlpos⟩ := hinv f l hl
      obtain ⟨chunk, pos', heq, hclen, hplt⟩ :=
        copyCircular_spec l n ((List.lookup f eb.playback_pos).getD 0) hlne hlpos
      simp only [hl, heq]
      have hinv1 : EchoInv { eb with playback_pos := updMap eb.playback_pos f pos' } := by
        intro g lg hg
        by_cases hgf : g = f
        · subst hgf
          have hgl : lg = l := Option.some.inj (hg.symm.trans hl)
          subst hgl
          refine ⟨hlne, ?_⟩
          show (List.lookup g (updMap eb.playback_pos g pos')).getD 0 < lg.length
          rw [lookup_updMap_self]
          exact hplt
        · obtain ⟨h1, h2⟩ := hinv g lg hg
          refine ⟨h1, ?_⟩
          show (List.lookup g (updMap eb.playback_pos f pos')).getD 0 < lg.length
          rw [lookup_updMap_ne _ _ _ _ hgf]
          exact h2
      by_cases hoff : ((rx : ℚ) - (f : ℚ)) ≠ 0
      · rw [if_pos hoff]
        have hinv2 : EchoInv { eb with
            playback_pos := updMap eb.playback_pos f pos'
            shift_phase := updMap eb.shift_phase f
              (if |(List.lookup f eb.shift_phase).getD 0 +
                    2 * piQ * ((rx : ℚ) - (f : ℚ)) / (sr : ℚ) * (n : ℚ)| > 1000000 then
                ratFmod ((List.lookup f eb.shift_phase).getD 0 +
                  2 * piQ * ((rx : ℚ) - (f : ℚ)) / (sr : ℚ) * (n : ℚ)) (2 * piQ)
              else (List.lookup f eb.shift_phase).getD 0 +
                2 * piQ * ((rx : ℚ) - (f : ℚ)) / (sr : ℚ) * (n : ℚ)) } := by
          intro g lg hg
          exact hinv1 g lg hg
        obtain ⟨res, eb', hgl, hr, hech, hinv'⟩ := ih _ (List.zipWith cadd result
          (chunk.mapIdx (fun i s => cmul s
            (cosF ((List.lookup f eb.shift_phase).getD 0 +
              2 * piQ * ((rx : ℚ) - (f : ℚ)) / (sr : ℚ) * (i : ℚ)),
             sinF ((List.lookup f eb.shift_phase).getD 0 +
              2 * piQ * ((rx : ℚ) - (f : ℚ)) / (sr : ℚ) * (i : ℚ))))))
          hinv2 (fun g hg => hk g (List.mem_cons_of_mem f hg))
          (by rw [List.length_zipWith, List.length_mapIdx, hclen, hlen]; omega)
        exact ⟨res, eb', hgl, hr, hech, hinv'⟩
      · rw [if_neg hoff]
        obtain ⟨res, eb', hgl, hr, hech, hinv'⟩ := ih _ (List.zipWith cadd result chunk)
          hinv1 (fun g hg => hk g (List.mem_cons_of_mem f hg))
          (by rw [List.length_zipWith, hclen, hlen]; omega)
        exact ⟨res, eb', hgl, hr, hech, hinv'⟩

theorem generateEcho_total (cosF sinF : ℚ → ℚ) (piQ : ℚ) (eb : EchoBuffer) (n rx sr : ℕ)
    (hinv : EchoInv eb) :
    ∃ res eb', generateEcho cosF sinF piQ eb n rx sr = some (res, eb') ∧
      res.length = n ∧ eb'.echoes = eb.echoes ∧ EchoInv eb' := by
  unfold generateEcho
  by_cases hemp : eb.echoes = []
  · rw [if_pos hemp]
    exact ⟨_, eb, rfl, List.length_replicate _ _, rfl, hinv⟩
  · rw [if_neg hemp]
    obtain ⟨res0, eb0, heq, hlen, hech, hinv0⟩ := genLoop_spec cosF sinF piQ n rx sr
      (eb.echoes.map (fun p => p.1)) eb (List.replicate n (0, 0)) hinv
      (fun g hg => lookup_isSome_of_mem_keys _ _ hg) (List.length_replicate _ _)
    simp only [heq]
    exact ⟨_, eb0, rfl, by rw [List.length_map, hlen], hech, hinv0⟩

theorem echoInv_new (sr : ℕ) : EchoInv (EchoBuffer.new sr) := by
  intro f l h
  simp [EchoBuffer.new, List.lookup] at h

theorem echoInv_commit {eb : EchoBuffer} (h : EchoInv eb) : EchoInv eb.commit := by
  by_cases h1 : eb.recording = []
  · rw [commit_keep eb h1]
    exact h
  · by_cases h2 : eb.recording_freq = 0
    · have hc : eb.commit = { eb with recording := [] } := by
        unfold EchoBuffer.commit
        rw [if_neg h1, if_pos h2]
      rw [hc]
      intro f l hl
      exact h f l hl
    · by_cases h3 : eb.recording.take eb.maxSamples = []
      · have hc : eb.commit = { eb with recording := [] } := by
          unfold EchoBuffer.commit
          rw [if_neg h1, if_neg h2, if_pos h3]
        rw [hc]
        intro f l hl
        exact h f l hl
      · have hmax : 1 ≤ eb.maxSamples := by
          by_contra hc
          have hz : eb.maxSamples = 0 := by omega
          rw [hz] at h3
          simp at h3
        rw [commit_store eb h1 h2 hmax]
        intro f l hl
        have hl' : List.lookup f (updMap eb.echoes eb.recording_freq
            (eb.recording.take eb.maxSamples)) = some l := hl
        show l ≠ [] ∧
          (List.lookup f (updMap eb.playback_pos eb.recording_freq 0)).getD 0 < l.length
        by_cases hf : f = eb.recording_freq
        · rw [hf] at hl' ⊢
          rw [lookup_updMap_self] at hl'
          have hle : l = eb.recording.take eb.maxSamples := (Option.some.inj hl').symm
          subst hle
          refine ⟨h3, ?_⟩
          rw [lookup_updMap_self]
          exact List.length_pos.mpr h3
        · rw [lookup_updMap_ne _ _ _ _ hf] at hl'
          obtain ⟨ha, hb⟩ := h f l hl'
          refine ⟨ha, ?_⟩
          rw [lookup_updMap_ne _ _ _ _ hf]
          exact hb

theorem echoInv_start {eb : EchoBuffer} (f : ℕ) (h : EchoInv eb) :
    EchoInv (eb.startRecording f) := by
  unfold EchoBuffer.startRecording
  by_cases hr : eb.is_recording
  · rw [if_pos hr]
    intro g l hl
    exact echoInv_commit h g l hl
  · rw [if_neg hr]
    intro g l hl
    exact h g l hl

theorem echoInv_feed {eb : EchoBuffer} (xs : List (ℚ × ℚ)) (h : EchoInv eb) :
    EchoInv (eb.feed xs) := by
  unfold EchoBuffer.feed
  split_ifs with hc
  · exact h
  · intro g l hl
    exact h g l hl

theorem echoInv_stop {eb : EchoBuffer} (h : EchoInv eb) : EchoInv eb.stopRecording := by
  unfold EchoBuffer.stopRecording
  split_ifs with hc
  · intro g l hl
    exact echoInv_commit h g l hl
  · exact h

theorem echoReachable_inv {eb : EchoBuffer} (h : EchoReachable eb) : EchoInv eb := by
  induction h with
  | new sr => exact echoInv_new sr
  | start f hr ih => exact echoInv_start f ih
  | feed xs hr ih => exact echoInv_feed xs ih
  | stop hr ih => exact echoInv_stop ih
  | gen cosF sinF piQ n rx sr hr hgen ih =>
    obtain ⟨res0, eb0, heq, _, _, hinv0⟩ := generateEcho_total cosF sinF piQ _ n rx sr ih
    rw [heq] at hgen
    have hpair := Option.some.inj hgen
    injection hpair with hres hebq
    exact hebq ▸ hinv0

/-- Claim C10: every recording stored in the echo map of a reachable echo
buffer is non-empty (empty commits are rejected before insertion), so
`generate_echo` never reduces a playback pointer modulo zero (the `Option`
model never hits its `none` failure paths) and returns exactly `n_samples`
samples. -/
theorem claim_C10 : ∀ eb : EchoBuffer, EchoReachable eb →
    (∀ f l, List.lookup f eb.echoes = some l → l ≠ []) ∧
    (∀ (cosF sinF : ℚ → ℚ) (piQ : ℚ) (n rx sr : ℕ),
      ∃ res eb', generateEcho cosF sinF piQ eb n rx sr = some (res, eb') ∧
        res.length = n) := by
  intro eb hre
  have hinv := echoReachable_inv hre
  refine ⟨fun f l hl => (hinv f l hl).1, fun cosF sinF piQ n rx sr => ?_⟩
  obtain ⟨res, eb', heq, hlen, _, _⟩ := generateEcho_total cosF sinF piQ eb n rx sr hinv
  exact ⟨res, eb', heq, hlen⟩

theorem claim_C10_witness :
    ∃ res eb', generateEcho (fun q => q) (fun q => q) 0 demoEchoDone 3 7000000 48000 =
      some (res, eb') ∧ res.length = 3 :=
  (claim_C10 demoEchoDone
    (EchoReachable.stop (EchoReachable.feed _
      (EchoReachable.start _ (EchoReachable.new 48000))))).2
    (fun q => q) (fun q => q) 0 3 7000000 48000

theorem truncToInt_sub_lt (q : ℚ) : |(truncToInt q : ℚ) - q| < 1 := by
  rw [truncToInt_eq_floor]
  by_cases hq : 0 ≤ q
  · rw [if_pos hq]
    have h1 : (⌊q⌋ : ℚ) ≤ q := Int.floor_le q
    have h2 : q - 1 < (⌊q⌋ : ℚ) := Int.sub_one_lt_floor q
    rw [abs_lt]
    constructor <;> linarith
  · rw [if_neg hq]
    have h1 : (⌊-q⌋ : ℚ) ≤ -q := Int.floor_le (-q)
    have h2 : -q - 1 < (⌊-q⌋ : ℚ) := Int.sub_one_lt_floor (-q)
    rw [abs_lt]
    push_cast
    constructor <;> linarith

theorem abs_truncToInt_le (q : ℚ) : |(truncToInt q : ℚ)| ≤ |q| := by
  rw [truncToInt_eq_floor]
  by_cases hq : 0 ≤ q
  · rw [if_pos hq]
    have h0 : (0 : ℚ) ≤ (⌊q⌋ : ℚ) := by exact_mod_cast Int.floor_nonneg.mpr hq
    rw [abs_of_nonneg h0, abs_of_nonneg hq]
    exact Int.floor_le q
  · rw [if_neg hq]
    push_neg at hq
    have h1 : (⌊-q⌋ : ℚ) ≤ -q := Int.floor_le (-q)
    have h0 : (0 : ℚ) ≤ (⌊-q⌋ : ℚ) := by
      have hz : (0 : ℤ) ≤ ⌊-q⌋ := Int.floor_nonneg.mpr (by linarith)
      exact_mod_cast hz
    push_cast
    rw [abs_of_nonpos (by linarith : -((⌊-q⌋ : ℤ) : ℚ) ≤ 0), abs_of_neg hq, neg_neg]
    exact h1

theorem recompose24 (m : ℕ) (h : m < 16777216) :
    ((m >>> 16) &&& 255) * 65536 + ((m >>> 8) &&& 255) * 256 + (m &&& 255) = m := by
  have h255 : (255 : ℕ) = 2 ^ 8 - 1 := by norm_num
  rw [Nat.shiftRight_eq_div_pow, Nat.shiftRight_eq_div_pow, h255,
    Nat.and_pow_two_sub_one_eq_mod, Nat.and_pow_two_sub_one_eq_mod,
    Nat.and_pow_two_sub_one_eq_mod,
    show (2 : ℕ) ^ 8 = 256 from by norm_num,
    show (2 : ℕ) ^ 16 = 65536 from by norm_num]
  omega

theorem mask_toSigned24 (iv : ℤ) (h1 : -8388608 ≤ iv) (h2 : iv < 8388608) :
    toSigned24 (((iv % (2 ^ 32 : ℤ)).toNat) &&& 0xFFFFFF) = iv := by
  rw [show (0xFFFFFF : ℕ) = 2 ^ 24 - 1 from by norm_num,
    Nat.and_pow_two_sub_one_eq_mod,
    show (2 : ℕ) ^ 24 = 16777216 from by norm_num,
    show (2 ^ 32 : ℤ) = 4294967296 from by norm_num]
  unfold toSigned24
  split_ifs with hlt <;> omega

theorem pack_component_roundtrip (x : ℚ) (hx : |x| ≤ 1 - 1 / 8388608) :
    |(toSigned24
        (((((truncToInt (clampQ x * 8388607)) % (2 ^ 32 : ℤ)).toNat &&& 0xFFFFFF) >>> 16 &&&
            0xFF) * 65536 +
          ((((truncToInt (clampQ x * 8388607)) % (2 ^ 32 : ℤ)).toNat &&& 0xFFFFFF) >>> 8 &&&
            0xFF) * 256 +
          ((((truncToInt (clampQ x * 8388607)) % (2 ^ 32 : ℤ)).toNat &&& 0xFFFFFF) &&&
            0xFF)) : ℚ) / 8388607 - x| ≤ 1 / 8388607 := by
  obtain ⟨hxl, hxr⟩ := abs_le.mp hx
  have hclamp : clampQ x = x := by
    unfold clampQ
    rw [min_eq_left (by linarith), max_eq_right (by linarith)]
  rw [hclamp]
  have h1 : |(truncToInt (x * 8388607) : ℚ)| ≤ |x * 8388607| := abs_truncToInt_le _
  have h2 : |x * 8388607| ≤ 8388607 - 8388607 / 8388608 := by
    rw [abs_mul, abs_of_pos (show (0 : ℚ) < 8388607 from by norm_num)]
    have h2a := mul_le_mul_of_nonneg_right hx (show (0 : ℚ) ≤ 8388607 from by norm_num)
    have h2b : (1 - 1 / 8388608 : ℚ) * 8388607 = 8388607 - 8388607 / 8388608 := by ring
    linarith
  have h3 : |(truncToInt (x * 8388607) : ℚ)| < 8388607 :=
    lt_of_le_of_lt (h1.trans h2) (by norm_num)
  have h4 : -8388608 ≤ truncToInt (x * 8388607) := by
    have hc : (-8388607 : ℤ) < truncToInt (x * 8388607) := by
      exact_mod_cast (abs_lt.mp h3).1
    omega
  have h5 : truncToInt (x * 8388607) < 8388608 := by
    have hc : truncToInt (x * 8388607) < (8388607 : ℤ) := by
      exact_mod_cast (abs_lt.mp h3).2
    omega
  have hm24 : (((truncToInt (x * 8388607) % (2 ^ 32 : ℤ)).toNat) &&& 0xFFFFFF) < 16777216 := by
    rw [show (0xFFFFFF : ℕ) = 2 ^ 24 - 1 from by norm_num,
      Nat.and_pow_two_sub_one_eq_mod]
    exact Nat.mod_lt _ (by norm_num)
  rw [recompose24 _ hm24, mask_toSigned24 _ h4 h5]
  have h6 : |(truncToInt (x * 8388607) : ℚ) - x * 8388607| < 1 := truncToInt_sub_lt _
  have h7 : (truncToInt (x * 8388607) : ℚ) / 8388607 - x =
      ((truncToInt (x * 8388607) : ℚ) - x * 8388607) / 8388607 := by ring
  rw [h7, abs_div, abs_of_pos (show (0 : ℚ) < 8388607 from by norm_num)]
  have h8 : |(truncToInt (x * 8388607) : ℚ) - x * 8388607| ≤ 1 := le_of_lt h6
  gcongr

/-- Claim C8: for samples whose components have absolute value at most
1 − 2⁻²³, decoding the 6 bytes written by the 24-bit codec (as two signed
24-bit big-endian integers scaled by 1/8_388_607 — the spec's decoder,
`decode24Spec`) recovers each component to within one ULP = 1/8_388_607
(≈ 1.2·10⁻⁷); out-of-range inputs saturate to the clamped endpoint. -/
theorem claim_C8 :
    (∀ x y : ℚ, |x| ≤ 1 - 1 / 8388608 → |y| ≤ 1 - 1 / 8388608 →
      |decode24Spec ((packIQ24Bytes (x, y)).take 3) - x| ≤ 1 / 8388607 ∧
      |decode24Spec ((packIQ24Bytes (x, y)).drop 3) - y| ≤ 1 / 8388607) ∧
    (∀ x y : ℚ, 1 ≤ x → packIQ24Bytes (x, y) = packIQ24Bytes (1, y)) ∧
    (∀ x y : ℚ, x ≤ -1 → packIQ24Bytes (x, y) = packIQ24Bytes (-1, y)) := by
  refine ⟨fun x y hx hy => ⟨?_, ?_⟩, fun x y hx => ?_, fun x y hx => ?_⟩
  · exact pack_component_roundtrip x hx
  · exact pack_component_roundtrip y hy
  · have hcl : clampQ x = clampQ 1 := by
      unfold clampQ
      rw [min_eq_right hx, min_self]
    simp only [packIQ24Bytes]
    rw [hcl]
  · have hcl : clampQ x = clampQ (-1) := by
      unfold clampQ
      rw [min_eq_left (by linarith), max_eq_left hx,
        min_eq_left (by norm_num), max_eq_left (by norm_num)]
    simp only [packIQ24Bytes]
    rw [hcl]

theorem claim_C8_witness :
    |(1 / 2 : ℚ)| ≤ 1 - 1 / 8388608 ∧
    |(-1 / 3 : ℚ)| ≤ 1 - 1 / 8388608 ∧
    (|decode24Spec ((packIQ24Bytes (1 / 2, -1 / 3)).take 3) - 1 / 2| ≤ 1 / 8388607 ∧
     |decode24Spec ((packIQ24Bytes (1 / 2, -1 / 3)).drop 3) - (-1 / 3)| ≤ 1 / 8388607) ∧
    (1 : ℚ) ≤ 2 ∧
    packIQ24Bytes (2, 0) = packIQ24Bytes (1, 0) :=
  ⟨by rw [abs_of_pos (by norm_num)]; norm_num,
   by rw [abs_of_neg (by norm_num)]; norm_num,
   claim_C8.1 (1 / 2) (-1 / 3)
     (by rw [abs_of_pos (by norm_num)]; norm_num)
     (by rw [abs_of_neg (by norm_num)]; norm_num),
   by norm_num,
   claim_C8.2.1 2 0 (by norm_num)⟩

end HpsdrEmu
